import Mathlib

/-
Verification of the publish/consume measurement pipeline
(assignment-pub-sub/producer/producer.py and assignment-pub-sub/consumer/consumer.py).

Modelling conventions:
* Python floats are modelled as exact rationals (ℚ); the latency arithmetic of the
  source is exact rational arithmetic, so no rounding model is needed.
* `datetime` values are modelled by the `DateTime` structure below (always UTC, as in
  the source, which only ever constructs aware UTC datetimes); `isoformat` /
  `fromisoformat` are modelled concretely for the canonical format that
  `datetime.isoformat()` emits for aware UTC datetimes.
* JSON values are modelled by the `JValue` tree; `json.dumps` / `json.loads` of such a
  tree are modelled as the identity on the tree (the textual JSON layer is library
  code outside the repository).
* Python exceptions are modelled by the `PyExn` type; an operation that may raise
  returns `Except PyExn _` or an explicit exception field.
-/

/-- JSON values exchanged on the wire.  Numbers are modelled as integers: the only
numeric field in the pipeline is the producer's `count`, declared `int` in the
source (`record_message(message_count: int)`), and payloads whose `count` is a
non-integer number are outside the model. -/
inductive JValue where
  | null : JValue
  | bool (b : Bool) : JValue
  | num (n : ℤ) : JValue
  | str (s : String) : JValue
  | obj (fields : List (String × JValue)) : JValue

/-- The Python exceptions that can arise in the consumer callback. -/
inductive PyExn where
  | jsonDecodeError : PyExn
  | keyError : PyExn
  | valueError : PyExn
  | typeError : PyExn
  | unicodeDecodeError : PyExn
deriving DecidableEq

/-- Dictionary lookup on the field list of a JSON object (`data[key]` on a dict):
first binding wins, `KeyError` when absent. -/
def lookupField : List (String × JValue) → String → Except PyExn JValue
  | [], _ => .error .keyError
  | (k, v) :: fs, key => if key = k then .ok v else lookupField fs key

/-- Python subscript `data[key]`: `KeyError` when the key is missing from a dict,
`TypeError` when `data` is not a dict at all. -/
def JValue.getItem : JValue → String → Except PyExn JValue
  | .obj fs, key => lookupField fs key
  | _, _ => .error .typeError

/-- The ASCII character of a decimal digit. -/
def digitChar (d : ℕ) : Char := Char.ofNat (48 + d)

/-- The decimal value of an ASCII digit character, `none` for non-digits. -/
def charVal (c : Char) : Option ℕ :=
  if 48 ≤ c.toNat ∧ c.toNat ≤ 57 then some (c.toNat - 48) else none

/-- Zero-padded fixed-width decimal rendering (most significant digit first),
as produced by the `%0kd` conversions inside `datetime.isoformat`. -/
def padDigits : ℕ → ℕ → List Char
  | 0, _ => []
  | k + 1, n => digitChar (n / 10 ^ k) :: padDigits k (n % 10 ^ k)

/-- Accumulating parser for a fixed number of decimal digits. -/
def parseFixedAux : ℕ → ℕ → List Char → Option (ℕ × List Char)
  | 0, a, cs => some (a, cs)
  | k + 1, a, c :: cs =>
    match charVal c with
    | some d => parseFixedAux k (a * 10 + d) cs
    | none => none
  | _ + 1, _, [] => none

/-- Parse exactly `k` decimal digits, returning the value and the rest. -/
def parseFixed (k : ℕ) (cs : List Char) : Option (ℕ × List Char) :=
  parseFixedAux k 0 cs

/-- Consume one expected character. -/
def expectChar (c : Char) : List Char → Option (List Char)
  | x :: xs => if x = c then some xs else none
  | [] => none

/-- Consume an expected run of characters. -/
def expectChars : List Char → List Char → Option (List Char)
  | [], cs => some cs
  | p :: ps, c :: cs => if c = p then expectChars ps cs else none
  | _ :: _, [] => none

/-- An aware UTC `datetime` value (the source only ever constructs
`datetime.now(timezone.utc)` and values parsed back from its own ISO strings). -/
structure DateTime where
  year : ℕ
  month : ℕ
  day : ℕ
  hour : ℕ
  minute : ℕ
  second : ℕ
  microsecond : ℕ
deriving DecidableEq

/-- Gregorian leap-year rule, as in Python's `calendar.isleap`. -/
def isLeapYear (y : ℕ) : Bool :=
  y % 4 = 0 && (y % 100 ≠ 0 || y % 400 = 0)

/-- Number of days in a month of a given year. -/
def daysInMonth (y m : ℕ) : ℕ :=
  if m = 2 then (if isLeapYear y then 29 else 28)
  else if m = 4 ∨ m = 6 ∨ m = 9 ∨ m = 11 then 30
  else 31

/-- The range invariants of a Python `datetime` (`MINYEAR = 1`, `MAXYEAR = 9999`). -/
def DateTime.Valid (t : DateTime) : Prop :=
  1 ≤ t.year ∧ t.year ≤ 9999 ∧ 1 ≤ t.month ∧ t.month ≤ 12 ∧
  1 ≤ t.day ∧ t.day ≤ daysInMonth t.year t.month ∧
  t.hour ≤ 23 ∧ t.minute ≤ 59 ∧ t.second ≤ 59 ∧ t.microsecond ≤ 999999

instance (t : DateTime) : Decidable t.Valid := by
  unfold DateTime.Valid; infer_instance

/-- The character sequence of `datetime.isoformat()` for an aware UTC value:
`YYYY-MM-DDTHH:MM:SS[.ffffff]+00:00`, the microsecond part omitted when zero. -/
def isoChars (t : DateTime) : List Char :=
  padDigits 4 t.year ++ '-' :: padDigits 2 t.month ++ '-' :: padDigits 2 t.day ++
  'T' :: padDigits 2 t.hour ++ ':' :: padDigits 2 t.minute ++ ':' :: padDigits 2 t.second ++
  (if t.microsecond = 0 then [] else '.' :: padDigits 6 t.microsecond) ++
  ('+' :: '0' :: '0' :: ':' :: '0' :: '0' :: [])

/-- Model of `datetime.isoformat()` (producer line 49). -/
def isoformat (t : DateTime) : String := String.mk (isoChars t)

/-- Final stage of the parse underlying `fromisoformat`: the `+00:00` offset,
the end of input, and the range validation, given all parsed fields. -/
def fromisoFinish (y mo d h mi s us : ℕ) (r2 : List Char) : Option DateTime :=
  match expectChars ('+' :: '0' :: '0' :: ':' :: '0' :: '0' :: []) r2 with
  | none => none
  | some r3 =>
    match r3 with
    | [] =>
      let t : DateTime := ⟨y, mo, d, h, mi, s, us⟩
      if t.Valid then some t else none
    | _ => none

/-- Tail of the parse underlying `fromisoformat`: the optional fractional part,
then the final stage. -/
def fromisoTail (y mo d h mi s : ℕ) (r : List Char) : Option DateTime :=
  match r with
  | c :: r2 =>
    if c = '.' then
      match parseFixed 6 r2 with
      | none => none
      | some (us, r3) => fromisoFinish y mo d h mi s us r3
    else fromisoFinish y mo d h mi s 0 r
  | [] => fromisoFinish y mo d h mi s 0 r

/-- Parser underlying `fromisoformat`, over the canonical format emitted by
`isoformat` above; out-of-range components are rejected, as Python does. -/
def fromisoChars (cs : List Char) : Option DateTime :=
  match parseFixed 4 cs with
  | none => none
  | some (y, r) =>
    match expectChar '-' r with
    | none => none
    | some r =>
      match parseFixed 2 r with
      | none => none
      | some (mo, r) =>
        match expectChar '-' r with
        | none => none
        | some r =>
          match parseFixed 2 r with
          | none => none
          | some (d, r) =>
            match expectChar 'T' r with
            | none => none
            | some r =>
              match parseFixed 2 r with
              | none => none
              | some (h, r) =>
                match expectChar ':' r with
                | none => none
                | some r =>
                  match parseFixed 2 r with
                  | none => none
                  | some (mi, r) =>
                    match expectChar ':' r with
                    | none => none
                    | some r =>
                      match parseFixed 2 r with
                      | none => none
                      | some (s, r) => fromisoTail y mo d h mi s r

/-- Model of `datetime.fromisoformat` (consumer line 203): returns `none` where
Python raises `ValueError`. -/
def fromisoformat (s : String) : Option DateTime := fromisoChars s.data

/-- Days contributed by the full months before month `m` of year `y`. -/
def daysBeforeMonth (y m : ℕ) : ℕ :=
  ((List.range' 1 (m - 1)).map (daysInMonth y)).sum

/-- Proleptic-Gregorian ordinal day count (day 0 = 0001-01-01), as in
`datetime.toordinal`. -/
def toOrdinal (t : DateTime) : ℕ :=
  let y := t.year - 1
  365 * y + y / 4 - y / 100 + y / 400 + daysBeforeMonth t.year t.month + (t.day - 1)

/-- Microseconds on the absolute UTC timeline; the common scale on which the
source's `datetime` subtraction is evaluated. -/
def toEpochMicro (t : DateTime) : ℕ :=
  (((toOrdinal t * 24 + t.hour) * 60 + t.minute) * 60 + t.second) * 1000000 + t.microsecond

/-- Model of `(a - b).total_seconds()` on two aware UTC datetimes. -/
def diffSeconds (a b : DateTime) : ℚ :=
  ((toEpochMicro a : ℤ) - (toEpochMicro b : ℤ)) / 1000000

/-- The latency computed by the callback (consumer line 204):
`(received_time - message_timestamp).total_seconds() * 1000`. -/
def latencyMs (received_time message_timestamp : DateTime) : ℚ :=
  diffSeconds received_time message_timestamp * 1000

/-- State of the `ConsumerMetrics` dataclass (consumer lines 15-35), with the
dataclass field defaults.  The lock only serializes access and carries no state,
so it has no counterpart here; operations are atomic state transformers. -/
structure ConsumerMetrics where
  start_time : Option DateTime := none
  end_time : Option DateTime := none
  messages_received : ℕ := 0
  messages_failed : ℕ := 0
  latencies_ms : List ℚ := []
  receive_times : List DateTime := []
  publish_times : List DateTime := []
  message_counts : List ℤ := []
deriving DecidableEq

/-- A freshly constructed `ConsumerMetrics()` (consumer line 194). -/
def initMetrics : ConsumerMetrics := {}

/-- `ConsumerMetrics.record_message` (consumer lines 37-52). -/
def ConsumerMetrics.record_message (m : ConsumerMetrics) (latency_ms : ℚ)
    (receive_time publish_time : DateTime) (message_count : ℤ) : ConsumerMetrics :=
  { m with
    start_time := match m.start_time with
      | none => some receive_time
      | some t => some t
    messages_received := m.messages_received + 1
    latencies_ms := m.latencies_ms ++ [latency_ms]
    receive_times := m.receive_times ++ [receive_time]
    publish_times := m.publish_times ++ [publish_time]
    message_counts := m.message_counts ++ [message_count] }

/-- `ConsumerMetrics.record_failure` (consumer lines 54-57). -/
def ConsumerMetrics.record_failure (m : ConsumerMetrics) : ConsumerMetrics :=
  { m with messages_failed := m.messages_failed + 1 }

/-- `ConsumerMetrics.finalize` (consumer lines 59-62); the current wall-clock
time is passed explicitly. -/
def ConsumerMetrics.finalize (m : ConsumerMetrics) (now : DateTime) : ConsumerMetrics :=
  { m with end_time := some now }

/-- One invocation of a mutating aggregator operation.  The aggregator lock makes
the three operations atomic, so any concurrent execution is equivalent to some
interleaving, i.e. to a list of `MetricsOp`. -/
inductive MetricsOp where
  | msg (latency_ms : ℚ) (receive_time publish_time : DateTime) (message_count : ℤ) : MetricsOp
  | fail : MetricsOp
  | fin (now : DateTime) : MetricsOp
deriving DecidableEq

/-- Apply one aggregator operation. -/
def applyOp (m : ConsumerMetrics) : MetricsOp → ConsumerMetrics
  | .msg l r p c => m.record_message l r p c
  | .fail => m.record_failure
  | .fin t => m.finalize t

/-- Run a sequence of aggregator operations. -/
def runOps (m : ConsumerMetrics) (ops : List MetricsOp) : ConsumerMetrics :=
  ops.foldl applyOp m

/-- Whether an operation is a `record_message` call. -/
def MetricsOp.isMsg : MetricsOp → Bool
  | .msg .. => true
  | _ => false

/-- Receive time carried by the first `record_message` call of a trace, if any. -/
def firstMsgReceiveTime : List MetricsOp → Option DateTime
  | [] => none
  | .msg _ r _ _ :: _ => some r
  | .fail :: rest => firstMsgReceiveTime rest
  | .fin _ :: rest => firstMsgReceiveTime rest

/-- Python `int()` on a rational value: truncation toward zero. -/
def pyInt (q : ℚ) : ℤ := q.num.tdiv q.den

/-- `ConsumerMetrics._calculate_percentile` (consumer lines 64-75), with floats
modelled as rationals and `sorted` modelled by insertion sort (extensionally the
same list). -/
def calculate_percentile (data : List ℚ) (percentile : ℚ) : ℚ :=
  if data = [] then 0
  else
    let sorted_data := data.insertionSort (· ≤ ·)
    let index : ℚ := ((sorted_data.length : ℚ) - 1) * percentile / 100
    let lower : ℤ := pyInt index
    let upper : ℤ := lower + 1
    if (sorted_data.length : ℤ) ≤ upper then sorted_data.getD lower.toNat 0
    else
      let weight : ℚ := index - (lower : ℚ)
      sorted_data.getD lower.toNat 0 * (1 - weight) + sorted_data.getD upper.toNat 0 * weight

/-- The spec's percentile: linear-interpolation rank statistic at index
`(n-1)*p/100` over the sorted sequence; exact order statistic at an integral
index, linear interpolation between the bracketing order statistics otherwise. -/
def specPercentile (data : List ℚ) (p : ℚ) : ℚ :=
  let S := data.insertionSort (· ≤ ·)
  let i : ℚ := ((S.length : ℚ) - 1) * p / 100
  if (⌊i⌋ : ℚ) = i then S.getD (⌊i⌋).toNat 0
  else S.getD (⌊i⌋).toNat 0 * (1 - (i - (⌊i⌋ : ℚ))) + S.getD (⌈i⌉).toNat 0 * (i - (⌊i⌋ : ℚ))

/-- Reference median (as `statistics.median`): middle order statistic for odd
length, mean of the two middle order statistics for even length. -/
def medianRef (data : List ℚ) : ℚ :=
  let S := data.insertionSort (· ≤ ·)
  let n := S.length
  if n % 2 = 1 then S.getD (n / 2) 0
  else (S.getD (n / 2 - 1) 0 + S.getD (n / 2) 0) / 2

/-- Loop body of `_count_out_of_order`: fold over the list carrying the previous
element, counting descents. -/
def countOutOfOrderAux : ℤ → List ℤ → ℕ
  | _, [] => 0
  | prev, x :: xs => (if x < prev then 1 else 0) + countOutOfOrderAux x xs

/-- `ConsumerMetrics._count_out_of_order` (consumer lines 87-95). -/
def count_out_of_order (message_counts : List ℤ) : ℕ :=
  if message_counts.length < 2 then 0
  else
    match message_counts with
    | [] => 0
    | x :: xs => countOutOfOrderAux x xs

/-- The spec's out-of-order count: the number of positions `i ≥ 1` with
`sequence[i] < sequence[i-1]`, in receive order. -/
def specOutOfOrder (l : List ℤ) : ℕ :=
  ((l.zip l.tail).filter (fun p => p.2 < p.1)).length

/-- The values printed by `ConsumerMetrics.display_summary` (consumer lines
97-182), as a structure; a field is `none` when the corresponding line is not
printed.  `no_data` marks the early return of lines 112-115. -/
structure MetricsSummary where
  messages_received : ℕ
  messages_failed : ℕ
  success_rate : Option ℚ
  no_data : Bool
  duration_seconds : Option ℚ
  throughput : Option ℚ
  avg_latency : Option ℚ
  min_latency : Option ℚ
  max_latency : Option ℚ
  p50 : Option ℚ
  p90 : Option ℚ
  p95 : Option ℚ
  p99 : Option ℚ
  out_of_order : Option ℕ
  in_order_rate : Option ℚ
deriving DecidableEq

/-- `ConsumerMetrics.display_summary` (consumer lines 97-182) as a pure function
from the aggregator state to the printed summary values. -/
def ConsumerMetrics.display_summary (m : ConsumerMetrics) : MetricsSummary :=
  let total := m.messages_received + m.messages_failed
  let success_rate : Option ℚ :=
    if 0 < total then some ((m.messages_received : ℚ) / (total : ℚ) * 100) else none
  if m.latencies_ms = [] then
    { messages_received := m.messages_received, messages_failed := m.messages_failed
      success_rate := success_rate, no_data := true
      duration_seconds := none, throughput := none
      avg_latency := none, min_latency := none, max_latency := none
      p50 := none, p90 := none, p95 := none, p99 := none
      out_of_order := none, in_order_rate := none }
  else
    let duration_seconds : Option ℚ :=
      match m.start_time, m.end_time with
      | some s, some e => some (diffSeconds e s)
      | _, _ => none
    let throughput : Option ℚ :=
      match duration_seconds with
      | some d => if 0 < d then some ((m.messages_received : ℚ) / d) else none
      | none => none
    let ooo := count_out_of_order m.message_counts
    { messages_received := m.messages_received, messages_failed := m.messages_failed
      success_rate := success_rate, no_data := false
      duration_seconds := duration_seconds, throughput := throughput
      avg_latency := some (m.latencies_ms.sum / (m.latencies_ms.length : ℚ))
      min_latency := m.latencies_ms.min?, max_latency := m.latencies_ms.max?
      p50 := some (calculate_percentile m.latencies_ms 50)
      p90 := some (calculate_percentile m.latencies_ms 90)
      p95 := some (calculate_percentile m.latencies_ms 95)
      p99 := some (calculate_percentile m.latencies_ms 99)
      out_of_order := some ooo
      in_order_rate :=
        if 0 < m.messages_received then
          some (((m.messages_received : ℚ) - (ooo : ℚ)) / (m.messages_received : ℚ) * 100)
        else none }

/-- The payload of one delivered message, as seen by the callback after the two
library decoding stages it invokes: `notUtf8` stands for bytes rejected by
`message.data.decode` (UnicodeDecodeError), `notJson` for text rejected by
`json.loads` (JSONDecodeError), `json v` for a successfully parsed value. -/
inductive Wire where
  | notUtf8 : Wire
  | notJson : Wire
  | json (v : JValue) : Wire

/-- Outcome of one callback invocation: the aggregator state afterwards, whether
`message.ack()` (consumer line 222) was reached, and the exception escaping the
handler, if any. -/
structure CallbackResult where
  metrics : ConsumerMetrics
  acked : Bool
  uncaught : Option PyExn

/-- The consumer callback (consumer lines 198-222).  The `except` clause catches
only `json.JSONDecodeError` and `KeyError`; every other exception escapes before
`message.ack()` is reached.  After a successful `record_message`, the success log
line (lines 214-217) still subscripts `data` with `count` and `source`, so a
missing `source` raises `KeyError` there, which the same `except` clause turns
into an additional `record_failure`. -/
def callback (metrics : ConsumerMetrics) (received_time : DateTime) (w : Wire) :
    CallbackResult :=
  match w with
  | .notUtf8 => ⟨metrics, false, some .unicodeDecodeError⟩
  | .notJson => ⟨metrics.record_failure, true, none⟩
  | .json data =>
    match data.getItem "timestamp" with
    | .error .keyError => ⟨metrics.record_failure, true, none⟩
    | .error e => ⟨metrics, false, some e⟩
    | .ok (.str ts) =>
      match fromisoformat ts with
      | none => ⟨metrics, false, some .valueError⟩
      | some message_timestamp =>
        let latency_ms := latencyMs received_time message_timestamp
        match data.getItem "count" with
        | .error .keyError => ⟨metrics.record_failure, true, none⟩
        | .error e => ⟨metrics, false, some e⟩
        | .ok (.num count) =>
          let m1 := metrics.record_message latency_ms received_time message_timestamp count
          match data.getItem "source" with
          | .ok _ => ⟨m1, true, none⟩
          | .error .keyError => ⟨m1.record_failure, true, none⟩
          | .error e => ⟨m1, false, some e⟩
        | .ok _ => ⟨metrics, false, some .typeError⟩
    | .ok _ => ⟨metrics, false, some .typeError⟩

/-- The message envelope: the triple the producer serializes and the consumer
reads back (spec §3; producer lines 47-51). -/
structure Envelope where
  source : String
  timestamp : DateTime
  count : ℤ
deriving DecidableEq

/-- A valid envelope: a representable UTC timestamp and a positive sequence
count. -/
def Envelope.ValidE (e : Envelope) : Prop := e.timestamp.Valid ∧ 1 ≤ e.count

/-- Wire encoding of an envelope (producer lines 47-53): the JSON object
`{"source", "timestamp" (ISO-8601), "count"}` in construction order. -/
def Envelope.encode (e : Envelope) : JValue :=
  .obj [("source", .str e.source), ("timestamp", .str (isoformat e.timestamp)),
        ("count", .num e.count)]

/-- Wire decoding of an envelope: the field reads the consumer callback performs
(consumer lines 202-216): parse `timestamp` with `fromisoformat`, read `count`
and `source`; `none` when any read or the timestamp parse fails. -/
def decodeEnvelope (v : JValue) : Option Envelope :=
  match v.getItem "timestamp" with
  | .ok (.str ts) =>
    match fromisoformat ts with
    | some publish_time =>
      match v.getItem "count" with
      | .ok (.num c) =>
        match v.getItem "source" with
        | .ok (.str s) => some ⟨s, publish_time, c⟩
        | _ => none
      | _ => none
    | none => none
  | _ => none

/-- Outcome of one transport publish attempt (`future.result()`, producer lines
62-67): the delivered message id, or the exception message of a failed publish. -/
inductive PublishOutcome where
  | published (message_id : String) : PublishOutcome
  | failed (err : String) : PublishOutcome
deriving DecidableEq

/-- Whether a publish attempt succeeded. -/
def PublishOutcome.isPublished : PublishOutcome → Bool
  | .published _ => true
  | .failed _ => false

/-- The envelopes constructed by the producer loop (producer lines 46-55):
`count` runs over `range(1, num_messages + 1)` in construction order, and each
iteration samples its own `datetime.now` timestamp. -/
def producerEnvelopes (producer_id : String) (timestamps : ℕ → DateTime)
    (num_messages : ℕ) : List Envelope :=
  (List.range' 1 num_messages).map
    (fun count => ⟨producer_id, timestamps count, (count : ℤ)⟩)

/-- The batch result the producer reports (producer lines 57-69). -/
structure BatchResult where
  attempted : ℕ
  succeeded : ℕ
  outcomes : List PublishOutcome
deriving DecidableEq

/-- `futures.wait(publish_futures, return_when=ALL_COMPLETED)` (producer line
58): returns at the latest completion instant of the issued futures. -/
def futuresWaitAll (completion_times : List ℕ) : ℕ :=
  completion_times.foldl max 0

/-- The success tally of the collection loop (producer lines 60-67): each future
is inspected in original order; a raising `future.result()` is caught and the
loop continues with the next future. -/
def successCount : List PublishOutcome → ℕ
  | [] => 0
  | .published _ :: rest => successCount rest + 1
  | .failed _ :: rest => successCount rest

/-- The producer run (producer lines 44-69) from the point where the transport
has an outcome and a completion instant for every issued attempt: first the join
barrier over all futures, then the in-order collection of per-message outcomes.
Returns the instant at which the barrier releases, and the batch result. -/
def producerRun (num_messages : ℕ) (outcome : ℕ → PublishOutcome)
    (complete_at : ℕ → ℕ) : ℕ × BatchResult :=
  let indices := List.range' 1 num_messages
  let barrier := futuresWaitAll (indices.map complete_at)
  let results := indices.map outcome
  (barrier, { attempted := num_messages, succeeded := successCount results,
              outcomes := results })

/-- The sorted view of a latency list (`sorted(data)` in the source). -/
def sortedOf (data : List ℚ) : List ℚ := data.insertionSort (· ≤ ·)

/-- The spec's rank index `(n - 1) * p / 100` over the sorted latency list. -/
def rankIndex (data : List ℚ) (p : ℚ) : ℚ :=
  (((sortedOf data).length : ℚ) - 1) * p / 100

/-- A concrete receive time used in concrete instantiations. -/
def recvT : DateTime := ⟨2026, 2, 3, 4, 5, 6, 0⟩

/-- A concrete publish time one second after `recvT` (skewed clocks: the message
is received one second before it was published). -/
def pubT : DateTime := ⟨2026, 2, 3, 4, 5, 7, 0⟩

/-- A payload that is valid JSON with all three fields present, whose
`timestamp` value is not a parseable timestamp. -/
def badWire : Wire :=
  .json (.obj [("source", .str "producer-1"), ("timestamp", .str "not-a-timestamp"),
               ("count", .num 1)])

/-- A well-formed payload carrying `pubT` as its publish timestamp. -/
def goodPayload : JValue :=
  .obj [("source", .str "producer-1"), ("timestamp", .str (isoformat pubT)),
        ("count", .num 1)]

/-- A concrete valid envelope. -/
def envW : Envelope := ⟨"producer-1", pubT, 1⟩

/-- A concrete aggregator state: five messages recorded with sequence numbers
`[1, 2, 4, 3, 5]`. -/
def mW : ConsumerMetrics :=
  { start_time := some recvT, end_time := some pubT
    messages_received := 5, messages_failed := 0
    latencies_ms := [5, 6, 7, 8, 9]
    receive_times := [recvT, recvT, recvT, recvT, recvT]
    publish_times := [pubT, pubT, pubT, pubT, pubT]
    message_counts := [1, 2, 4, 3, 5] }

/-- A concrete outcome assignment: attempt 2 fails, the others succeed. -/
def outcomeW : ℕ → PublishOutcome :=
  fun i => if i = 2 then .failed "transport error" else .published "mid-1"

/-- A concrete completion schedule. -/
def completeW : ℕ → ℕ := fun i => 10 * i

/-- Another concrete completion schedule (a different completion order). -/
def completeW2 : ℕ → ℕ := fun i => 100 - i

instance (e : Envelope) : Decidable e.ValidE := by
  unfold Envelope.ValidE; infer_instance

theorem charVal_digitChar (d : ℕ) (h : d < 10) : charVal (digitChar d) = some d := by
  interval_cases d <;> decide

theorem parseFixedAux_pad (k : ℕ) : ∀ (a n : ℕ), n < 10 ^ k → ∀ rest : List Char,
    parseFixedAux k a (padDigits k n ++ rest) = some (a * 10 ^ k + n, rest) := by
  induction k with
  | zero =>
    intro a n hn rest
    interval_cases n
    simp [padDigits, parseFixedAux]
  | succ k ih =>
    intro a n hn rest
    have hdig : n / 10 ^ k < 10 := by
      have h10 : (0:ℕ) < 10 ^ k := Nat.pos_pow_of_pos k (by norm_num)
      rw [Nat.div_lt_iff_lt_mul h10]
      calc n < 10 ^ (k + 1) := hn
        _ = 10 * 10 ^ k := by ring
    have hmod : n % 10 ^ k < 10 ^ k :=
      Nat.mod_lt _ (Nat.pos_pow_of_pos k (by norm_num))
    simp only [padDigits, List.cons_append, parseFixedAux,
      charVal_digitChar _ hdig]
    simp only [List.append_eq]
    rw [ih (a * 10 + n / 10 ^ k) (n % 10 ^ k) hmod rest]
    congr 2
    calc (a * 10 + n / 10 ^ k) * 10 ^ k + n % 10 ^ k
        = a * (10 ^ k * 10) + (10 ^ k * (n / 10 ^ k) + n % 10 ^ k) := by ring
      _ = a * 10 ^ (k + 1) + n := by rw [Nat.div_add_mod]; ring

theorem parseFixed_pad (k n : ℕ) (rest : List Char) (h : n < 10 ^ k) :
    parseFixed k (padDigits k n ++ rest) = some (n, rest) := by
  unfold parseFixed
  rw [parseFixedAux_pad k 0 n h rest]
  simp

theorem expectChar_cons (c : Char) (rest : List Char) :
    expectChar c (c :: rest) = some rest := by
  simp [expectChar]

theorem expectChars_append (ps : List Char) : ∀ rest : List Char,
    expectChars ps (ps ++ rest) = some rest := by
  induction ps with
  | nil => intro rest; rfl
  | cons p ps ih => intro rest; simp [expectChars, ih]

theorem expectChars_self (ps : List Char) : expectChars ps ps = some [] := by
  have := expectChars_append ps []
  simpa using this


theorem fromisoformat_isoformat (t : DateTime) (hv : t.Valid) :
    fromisoformat (isoformat t) = some t := by
  have hvv : t.Valid := hv
  obtain ⟨h1, h2, h3, h4, h5, h6, h7, h8, h9, h10⟩ := hv
  have hdm : daysInMonth t.year t.month ≤ 31 := by
    unfold daysInMonth; split_ifs <;> omega
  have hy : t.year < 10 ^ 4 := by omega
  have hmo : t.month < 10 ^ 2 := by omega
  have hd : t.day < 10 ^ 2 := by omega
  have hh : t.hour < 10 ^ 2 := by omega
  have hmi : t.minute < 10 ^ 2 := by omega
  have hs : t.second < 10 ^ 2 := by omega
  have hus : t.microsecond < 10 ^ 6 := by omega
  show fromisoChars (isoChars t) = some t
  unfold fromisoChars isoChars
  by_cases hz : t.microsecond = 0
  · simp only [hz, if_pos rfl, List.cons_append, List.append_assoc, List.nil_append]
    rw [parseFixed_pad 4 t.year _ hy]
    simp only [expectChar_cons]
    rw [parseFixed_pad 2 t.month _ hmo]
    simp only [expectChar_cons]
    rw [parseFixed_pad 2 t.day _ hd]
    simp only [expectChar_cons]
    rw [parseFixed_pad 2 t.hour _ hh]
    simp only [expectChar_cons]
    rw [parseFixed_pad 2 t.minute _ hmi]
    simp only [expectChar_cons]
    rw [parseFixed_pad 2 t.second _ hs]
    show fromisoTail t.year t.month t.day t.hour t.minute t.second
        ('+' :: '0' :: '0' :: ':' :: '0' :: '0' :: []) = some t
    simp only [fromisoTail, if_true, if_false, reduceIte]
    unfold fromisoFinish
    simp only [expectChars_self]
    have ht : (⟨t.year, t.month, t.day, t.hour, t.minute, t.second, 0⟩ : DateTime) = t := by
      rw [← hz]
    rw [ht, if_pos hvv]
    rw [if_neg (by decide)]
  · simp only [if_neg hz, List.cons_append, List.append_assoc]
    rw [parseFixed_pad 4 t.year _ hy]
    simp only [expectChar_cons]
    rw [parseFixed_pad 2 t.month _ hmo]
    simp only [expectChar_cons]
    rw [parseFixed_pad 2 t.day _ hd]
    simp only [expectChar_cons]
    rw [parseFixed_pad 2 t.hour _ hh]
    simp only [expectChar_cons]
    rw [parseFixed_pad 2 t.minute _ hmi]
    simp only [expectChar_cons]
    rw [parseFixed_pad 2 t.second _ hs]
    show fromisoTail t.year t.month t.day t.hour t.minute t.second
        ('.' :: (padDigits 6 t.microsecond ++
          ('+' :: '0' :: '0' :: ':' :: '0' :: '0' :: []))) = some t
    simp only [fromisoTail, if_true, if_false, reduceIte]
    rw [parseFixed_pad 6 t.microsecond _ hus]
    unfold fromisoFinish
    simp only [expectChars_self]
    rw [if_pos hvv]

theorem pyInt_eq_floor (q : ℚ) (h : 0 ≤ q) : pyInt q = ⌊q⌋ := by
  unfold pyInt
  rw [Int.tdiv_eq_ediv (Rat.num_nonneg.mpr h) (Int.natCast_nonneg _)]
  exact Rat.floor_def.symm

theorem getD_zero_mem {l : List ℚ} (h : l ≠ []) : l.getD 0 0 ∈ l := by
  cases l with
  | nil => exact absurd rfl h
  | cons a t => exact List.mem_cons_self a t

theorem sorted_head_le {l : List ℚ} (hs : List.Sorted (· ≤ ·) l) {x : ℚ}
    (hx : x ∈ l) : l.getD 0 0 ≤ x := by
  cases l with
  | nil => cases hx
  | cons a t =>
    rcases List.mem_cons.mp hx with rfl | hxt
    · exact le_refl x
    · exact (List.sorted_cons.mp hs).1 x hxt

theorem getD_last_mem {l : List ℚ} (h : l ≠ []) : l.getD (l.length - 1) 0 ∈ l := by
  have hlen : l.length - 1 < l.length := by
    cases l with
    | nil => exact absurd rfl h
    | cons a t => simp
  rw [List.getD_eq_getElem l 0 hlen]
  exact List.getElem_mem hlen

theorem sorted_le_last {l : List ℚ} (hs : List.Sorted (· ≤ ·) l) {x : ℚ}
    (hx : x ∈ l) : x ≤ l.getD (l.length - 1) 0 := by
  induction l with
  | nil => cases hx
  | cons a t ih =>
    obtain ⟨hat, hst⟩ := List.sorted_cons.mp hs
    cases t with
    | nil =>
      rcases List.mem_cons.mp hx with rfl | hxt
      · simp
      · cases hxt
    | cons b u =>
      have hlast : (a :: b :: u).getD ((a :: b :: u).length - 1) 0
          = (b :: u).getD ((b :: u).length - 1) 0 := by
        simp [List.getD]
      rw [hlast]
      rcases List.mem_cons.mp hx with rfl | hxt
      · exact le_trans (hat _ (getD_last_mem (by simp))) (le_refl _)
      · exact ih hst hxt

theorem lookupField_cases (fs : List (String × JValue)) (k : String) :
    lookupField fs k = .error .keyError ∨ ∃ w, lookupField fs k = .ok w := by
  induction fs with
  | nil => exact Or.inl rfl
  | cons p rest ih =>
    obtain ⟨key, v⟩ := p
    by_cases hk : k = key
    · exact Or.inr ⟨v, by simp [lookupField, hk]⟩
    · simpa [lookupField, hk] using ih

theorem record_failure_latencies (m : ConsumerMetrics) :
    m.record_failure.latencies_ms = m.latencies_ms := rfl

theorem runOps_len_inv (ops : List MetricsOp) : ∀ m : ConsumerMetrics,
    m.latencies_ms.length = m.messages_received →
    m.receive_times.length = m.messages_received →
    m.publish_times.length = m.messages_received →
    m.message_counts.length = m.messages_received →
    (runOps m ops).latencies_ms.length = (runOps m ops).messages_received ∧
    (runOps m ops).receive_times.length = (runOps m ops).messages_received ∧
    (runOps m ops).publish_times.length = (runOps m ops).messages_received ∧
    (runOps m ops).message_counts.length = (runOps m ops).messages_received := by
  induction ops with
  | nil => intro m a b c d; exact ⟨a, b, c, d⟩
  | cons op rest ih =>
    intro m a b c d
    show (runOps (applyOp m op) rest).latencies_ms.length = _ ∧ _
    cases op with
    | msg l r p cnt =>
      exact ih _ (by simp [applyOp, ConsumerMetrics.record_message, a])
        (by simp [applyOp, ConsumerMetrics.record_message, b])
        (by simp [applyOp, ConsumerMetrics.record_message, c])
        (by simp [applyOp, ConsumerMetrics.record_message, d])
    | fail =>
      exact ih _ (by simpa [applyOp, ConsumerMetrics.record_failure] using a)
        (by simpa [applyOp, ConsumerMetrics.record_failure] using b)
        (by simpa [applyOp, ConsumerMetrics.record_failure] using c)
        (by simpa [applyOp, ConsumerMetrics.record_failure] using d)
    | fin tnow =>
      exact ih _ (by simpa [applyOp, ConsumerMetrics.finalize] using a)
        (by simpa [applyOp, ConsumerMetrics.finalize] using b)
        (by simpa [applyOp, ConsumerMetrics.finalize] using c)
        (by simpa [applyOp, ConsumerMetrics.finalize] using d)

theorem runOps_start_time (ops : List MetricsOp) : ∀ m : ConsumerMetrics,
    (runOps m ops).start_time
      = match m.start_time with
        | some t => some t
        | none => firstMsgReceiveTime ops := by
  induction ops with
  | nil =>
    intro m
    cases h : m.start_time <;> simp [runOps, firstMsgReceiveTime, h]
  | cons op rest ih =>
    intro m
    show (runOps (applyOp m op) rest).start_time = _
    cases op with
    | msg l r p cnt =>
      rw [ih]
      cases h : m.start_time <;>
        simp [applyOp, ConsumerMetrics.record_message, h, firstMsgReceiveTime]
    | fail =>
      rw [ih]
      cases h : m.start_time <;>
        simp [applyOp, ConsumerMetrics.record_failure, h, firstMsgReceiveTime]
    | fin tnow =>
      rw [ih]
      cases h : m.start_time <;>
        simp [applyOp, ConsumerMetrics.finalize, h, firstMsgReceiveTime]

theorem runOps_replicate_fail : ∀ (n : ℕ) (m : ConsumerMetrics),
    runOps m (List.replicate n .fail)
      = { m with messages_failed := m.messages_failed + n } := by
  intro n
  induction n with
  | zero => intro m; simp [runOps]
  | succ k ih =>
    intro m
    rw [List.replicate_succ]
    show runOps m.record_failure (List.replicate k .fail) = _
    rw [ih]
    simp [ConsumerMetrics.record_failure]
    omega

theorem runOps_no_msg (ops : List MetricsOp) (h : ∀ op ∈ ops, op.isMsg = false) :
    ∀ m : ConsumerMetrics, (runOps m ops).latencies_ms = m.latencies_ms := by
  induction ops with
  | nil => intro m; rfl
  | cons op rest ih =>
    intro m
    have hop : op.isMsg = false := h op (List.mem_cons_self _ _)
    have hrest : ∀ op ∈ rest, op.isMsg = false :=
      fun o ho => h o (List.mem_cons_of_mem _ ho)
    show (runOps (applyOp m op) rest).latencies_ms = m.latencies_ms
    cases op with
    | msg l r p cnt => simp [MetricsOp.isMsg] at hop
    | fail => rw [ih hrest]; rfl
    | fin tnow => rw [ih hrest]; rfl

theorem countAux_spec : ∀ (xs : List ℤ) (prev : ℤ),
    countOutOfOrderAux prev xs
      = (((prev :: xs).zip xs).filter (fun p => p.2 < p.1)).length := by
  intro xs
  induction xs with
  | nil => intro prev; rfl
  | cons y ys ih =>
    intro prev
    show (if y < prev then 1 else 0) + countOutOfOrderAux y ys = _
    rw [ih y]
    by_cases hlt : y < prev
    · simp [List.zip_cons_cons, List.filter, hlt, Nat.add_comm]
      rfl
    · simp [List.zip_cons_cons, List.filter, hlt]
      rfl

theorem countAux_chain_zero : ∀ (xs : List ℤ) (prev : ℤ),
    List.Chain (· < ·) prev xs → countOutOfOrderAux prev xs = 0 := by
  intro xs
  induction xs with
  | nil => intro prev _; rfl
  | cons y ys ih =>
    intro prev hch
    rcases List.chain_cons.mp hch with ⟨hpy, hch'⟩
    show (if y < prev then 1 else 0) + countOutOfOrderAux y ys = 0
    rw [if_neg (by exact not_lt_of_lt hpy), ih y hch']

theorem le_foldl_max_init : ∀ (l : List ℕ) (a : ℕ), a ≤ l.foldl max a := by
  intro l
  induction l with
  | nil => intro a; exact le_refl a
  | cons b t ih =>
    intro a
    exact le_trans (le_max_left a b) (ih (max a b))

theorem mem_le_foldl_max : ∀ (l : List ℕ) (a x : ℕ), x ∈ l → x ≤ l.foldl max a := by
  intro l
  induction l with
  | nil => intro a x hx; cases hx
  | cons b t ih =>
    intro a x hx
    rcases List.mem_cons.mp hx with rfl | hxt
    · exact le_trans (le_max_right a x) (le_foldl_max_init t (max a x))
    · exact ih (max a b) x hxt

theorem successCount_eq_filter : ∀ l : List PublishOutcome,
    successCount l = (l.filter PublishOutcome.isPublished).length := by
  intro l
  induction l with
  | nil => rfl
  | cons o rest ih =>
    cases o with
    | published id => simp [successCount, List.filter, PublishOutcome.isPublished, ih]
    | failed err => simp [successCount, List.filter, PublishOutcome.isPublished, ih]

/-- C1: the claim that for every possible payload the handler increments exactly
one of the two counters and acknowledges the message fails on the code: on a
payload that is valid JSON with all fields present but an unparseable
`timestamp` value, `datetime.fromisoformat` raises `ValueError`, which the
`except (json.JSONDecodeError, KeyError)` clause does not catch; the handler
exits without touching either counter and without reaching `message.ack()`. -/
theorem callback_uncaught_error_C1 :
    (callback initMetrics recvT badWire).uncaught = some PyExn.valueError
    ∧ (callback initMetrics recvT badWire).acked = false
    ∧ (callback initMetrics recvT badWire).metrics = initMetrics :=
  ⟨rfl, rfl, rfl⟩

/-- C3: the out-of-order count of `_count_out_of_order` equals the number of
receive-order positions `i` with `sequence[i] < sequence[i-1]`; it is 0 on any
strictly increasing list and 1 on `[1,2,4,3,5]`; and for a nonempty latency set
with at least one received message, the summary's in-order rate is
`(received - out_of_order) / received` (displayed as a percentage). -/
theorem out_of_order_count_C3 :
    (∀ l : List ℤ, count_out_of_order l = specOutOfOrder l)
    ∧ (∀ l : List ℤ, List.Chain' (· < ·) l → count_out_of_order l = 0)
    ∧ count_out_of_order [1, 2, 4, 3, 5] = 1
    ∧ (∀ m : ConsumerMetrics, m.latencies_ms ≠ [] → 0 < m.messages_received →
        m.display_summary.in_order_rate
          = some (((m.messages_received : ℚ) - (count_out_of_order m.message_counts : ℚ))
              / (m.messages_received : ℚ) * 100)) := by
  refine ⟨?_, ?_, by decide, ?_⟩
  · intro l
    cases l with
    | nil => rfl
    | cons x xs =>
      cases xs with
      | nil => rfl
      | cons y ys =>
        unfold count_out_of_order
        rw [if_neg (by simp)]
        show countOutOfOrderAux x (y :: ys) = specOutOfOrder (x :: y :: ys)
        rw [countAux_spec]
        rfl
  · intro l hch
    cases l with
    | nil => rfl
    | cons x xs =>
      cases xs with
      | nil => rfl
      | cons y ys =>
        unfold count_out_of_order
        rw [if_neg (by simp)]
        show countOutOfOrderAux x (y :: ys) = 0
        exact countAux_chain_zero _ _ hch
  · intro m hlat hrec
    simp [ConsumerMetrics.display_summary, hlat, hrec]

/-- C5: decoding the encoded wire form of a valid envelope recovers the envelope
exactly, timestamp included. -/
theorem envelope_roundtrip_C5 (e : Envelope) (h : e.ValidE) :
    decodeEnvelope (Envelope.encode e) = some e := by
  obtain ⟨hts, hcnt⟩ := h
  have l1 : (Envelope.encode e).getItem "timestamp" = .ok (.str (isoformat e.timestamp)) := rfl
  have l2 : (Envelope.encode e).getItem "count" = .ok (.num e.count) := rfl
  have l3 : (Envelope.encode e).getItem "source" = .ok (.str e.source) := rfl
  unfold decodeEnvelope
  rw [l1]
  simp only [fromisoformat_isoformat e.timestamp hts, l2, l3]

/-- C6: for every message whose decode path succeeds, the recorded latency is
exactly `receive_time - publish_time` in milliseconds, appended as computed to
the latency sequence (negative values included, unclamped), and the handler
acknowledges with no escaping exception. -/
theorem latency_recorded_exact_C6 (m : ConsumerMetrics) (received_time : DateTime)
    (v : JValue) (ts : String) (pub : DateTime) (cnt : ℤ)
    (hts : v.getItem "timestamp" = .ok (.str ts))
    (hpub : fromisoformat ts = some pub)
    (hcnt : v.getItem "count" = .ok (.num cnt)) :
    (callback m received_time (.json v)).metrics.latencies_ms
      = m.latencies_ms ++ [latencyMs received_time pub]
    ∧ (callback m received_time (.json v)).uncaught = none
    ∧ (callback m received_time (.json v)).acked = true
    ∧ latencyMs received_time pub
      = ((toEpochMicro received_time : ℤ) - (toEpochMicro pub : ℤ)) / 1000000 * 1000 := by
  have hobj : ∃ fs, v = .obj fs := by
    cases v with
    | obj fs => exact ⟨fs, rfl⟩
    | null => exact absurd hts (by simp [JValue.getItem])
    | bool b => exact absurd hts (by simp [JValue.getItem])
    | num n => exact absurd hts (by simp [JValue.getItem])
    | str s => exact absurd hts (by simp [JValue.getItem])
  obtain ⟨fs, rfl⟩ := hobj
  have hsrc := lookupField_cases fs "source"
  refine ⟨?_, ?_, ?_, rfl⟩ <;>
  · simp only [callback, hts, hpub, hcnt]
    rcases hsrc with hk | ⟨w, hk⟩ <;>
      simp [JValue.getItem, hk, ConsumerMetrics.record_message,
        ConsumerMetrics.record_failure]

/-- C7: the producer batch joins on every issued publish attempt (the barrier
releases no earlier than any completion), the reported result is independent of
completion order, and it carries the total attempted, the total succeeded, and
the per-message outcomes in original sequence order even in the presence of
failed attempts. -/
theorem publish_batch_join_C7 (num_messages : ℕ) (outcome : ℕ → PublishOutcome)
    (complete_at complete_at' : ℕ → ℕ) :
    (∀ i ∈ List.range' 1 num_messages,
        complete_at i ≤ (producerRun num_messages outcome complete_at).1)
    ∧ (producerRun num_messages outcome complete_at).2
        = (producerRun num_messages outcome complete_at').2
    ∧ (producerRun num_messages outcome complete_at).2.attempted = num_messages
    ∧ (producerRun num_messages outcome complete_at).2.outcomes
        = (List.range' 1 num_messages).map outcome
    ∧ (producerRun num_messages outcome complete_at).2.outcomes.length = num_messages
    ∧ (producerRun num_messages outcome complete_at).2.succeeded
        = ((producerRun num_messages outcome complete_at).2.outcomes.filter
            PublishOutcome.isPublished).length := by
  refine ⟨?_, rfl, rfl, rfl, ?_, ?_⟩
  · intro i hi
    show complete_at i ≤ futuresWaitAll ((List.range' 1 num_messages).map complete_at)
    exact mem_le_foldl_max _ 0 _ (List.mem_map_of_mem complete_at hi)
  · show ((List.range' 1 num_messages).map outcome).length = num_messages
    simp
  · show successCount ((List.range' 1 num_messages).map outcome) = _
    exact successCount_eq_filter _

/-- C8: the producer's envelopes carry sequence values `1, 2, ..., N` in
construction order: the count column equals `[1, ..., N]`, is strictly
increasing, duplicate-free, starts at 1, and has length `N`. -/
theorem producer_sequence_C8 (producer_id : String) (timestamps : ℕ → DateTime)
    (n : ℕ) :
    ((producerEnvelopes producer_id timestamps n).map Envelope.count
        = List.map (fun k : ℕ => (k : ℤ)) (List.range' 1 n))
    ∧ List.Chain' (· < ·)
        ((producerEnvelopes producer_id timestamps n).map Envelope.count)
    ∧ ((producerEnvelopes producer_id timestamps n).map Envelope.count).Nodup
    ∧ ((producerEnvelopes producer_id timestamps n).map Envelope.count).head?
        = (if n = 0 then none else some 1)
    ∧ ((producerEnvelopes producer_id timestamps n).map Envelope.count).length = n := by
  have hmap : (producerEnvelopes producer_id timestamps n).map Envelope.count
      = List.map (fun k : ℕ => (k : ℤ)) (List.range' 1 n) := by
    unfold producerEnvelopes
    rw [List.map_map]
    rfl
  have hpw : List.Pairwise (· < ·) (List.map (fun k : ℕ => (k : ℤ)) (List.range' 1 n)) := by
    refine List.Pairwise.map _ (fun a b hab => ?_) (List.pairwise_lt_range' 1 n)
    exact_mod_cast hab
  refine ⟨hmap, ?_, ?_, ?_, ?_⟩
  · rw [hmap]; exact hpw.chain'
  · rw [hmap]; exact List.Pairwise.imp ne_of_lt hpw
  · rw [hmap]
    cases n with
    | zero => rfl
    | succ k => rw [List.range'_succ]; simp
  · rw [hmap]; simp

/-- C9: under every operation sequence, the latency, receive-time, publish-time
and sequence lists of the aggregator all have length `messages_received`;
`start_time` is `none` at construction and afterwards equals exactly the receive
time of the first successful `record_message` of the trace, unchanged by
everything later. -/
theorem aggregator_invariant_C9 (ops : List MetricsOp) :
    ((runOps initMetrics ops).latencies_ms.length
        = (runOps initMetrics ops).messages_received
    ∧ (runOps initMetrics ops).receive_times.length
        = (runOps initMetrics ops).messages_received
    ∧ (runOps initMetrics ops).publish_times.length
        = (runOps initMetrics ops).messages_received
    ∧ (runOps initMetrics ops).message_counts.length
        = (runOps initMetrics ops).messages_received)
    ∧ initMetrics.start_time = none
    ∧ (runOps initMetrics ops).start_time = firstMsgReceiveTime ops := by
  refine ⟨runOps_len_inv ops initMetrics rfl rfl rfl rfl, rfl, ?_⟩
  rw [runOps_start_time ops initMetrics]
  rfl

/-- C10: `record_failure` increments `messages_failed` by one and leaves every
other aggregator field untouched; a run consisting of failures only still has
`start_time` unset (and all observation lists empty). -/
theorem record_failure_frame_C10 :
    (∀ m : ConsumerMetrics,
        m.record_failure.messages_failed = m.messages_failed + 1
        ∧ m.record_failure.start_time = m.start_time
        ∧ m.record_failure.end_time = m.end_time
        ∧ m.record_failure.messages_received = m.messages_received
        ∧ m.record_failure.latencies_ms = m.latencies_ms
        ∧ m.record_failure.receive_times = m.receive_times
        ∧ m.record_failure.publish_times = m.publish_times
        ∧ m.record_failure.message_counts = m.message_counts)
    ∧ (∀ n : ℕ, runOps initMetrics (List.replicate n .fail)
        = { initMetrics with messages_failed := n }) := by
  refine ⟨fun m => ⟨rfl, rfl, rfl, rfl, rfl, rfl, rfl, rfl⟩, fun n => ?_⟩
  rw [runOps_replicate_fail n initMetrics]
  simp [initMetrics]

/-- C4: a run with zero successful `record_message` calls (any number of
failures and finalizes) yields the "no data" summary with no throughput or
duration computed; and in general the wall-clock throughput is reported only
when start and end times exist, the duration is strictly positive, and at least
one message was received — otherwise it is not applicable (`none`), never a
division by zero. -/
theorem summary_no_data_C4 :
    (∀ ops : List MetricsOp, (∀ op ∈ ops, op.isMsg = false) →
        (runOps initMetrics ops).display_summary.no_data = true
        ∧ (runOps initMetrics ops).display_summary.throughput = none
        ∧ (runOps initMetrics ops).display_summary.duration_seconds = none)
    ∧ (∀ (ops : List MetricsOp) (q : ℚ),
        (runOps initMetrics ops).display_summary.throughput = some q →
        ∃ s e, (runOps initMetrics ops).start_time = some s
          ∧ (runOps initMetrics ops).end_time = some e
          ∧ 0 < diffSeconds e s
          ∧ 0 < (runOps initMetrics ops).messages_received) := by
  constructor
  · intro ops h
    have hlat : (runOps initMetrics ops).latencies_ms = [] :=
      runOps_no_msg ops h initMetrics
    refine ⟨?_, ?_, ?_⟩ <;> simp [ConsumerMetrics.display_summary, hlat]
  · intro ops q hq
    by_cases hlat : (runOps initMetrics ops).latencies_ms = []
    · simp [ConsumerMetrics.display_summary, hlat] at hq
    · have hrec : 0 < (runOps initMetrics ops).messages_received := by
        have hinv := (runOps_len_inv ops initMetrics rfl rfl rfl rfl).1
        have hlen : (runOps initMetrics ops).latencies_ms.length ≠ 0 := by
          simpa [List.length_eq_zero] using hlat
        omega
      simp only [ConsumerMetrics.display_summary, if_neg hlat] at hq
      cases hs : (runOps initMetrics ops).start_time with
      | none => rw [hs] at hq; simp at hq
      | some s =>
        cases he : (runOps initMetrics ops).end_time with
        | none => rw [hs, he] at hq; simp at hq
        | some e =>
          rw [hs, he] at hq
          simp only [] at hq
          by_cases hdur : 0 < diffSeconds e s
          · exact ⟨s, e, rfl, rfl, hdur, hrec⟩
          · rw [if_neg hdur] at hq
            cases hq

theorem calc_eval (data : List ℚ) (hd : data ≠ []) (p : ℚ) :
    calculate_percentile data p =
      if ((sortedOf data).length : ℤ) ≤ pyInt (rankIndex data p) + 1 then
        (sortedOf data).getD (pyInt (rankIndex data p)).toNat 0
      else
        (sortedOf data).getD (pyInt (rankIndex data p)).toNat 0
            * (1 - (rankIndex data p - (pyInt (rankIndex data p) : ℚ)))
          + (sortedOf data).getD (pyInt (rankIndex data p) + 1).toNat 0
            * (rankIndex data p - (pyInt (rankIndex data p) : ℚ)) := by
  unfold calculate_percentile sortedOf rankIndex
  rw [if_neg hd]
  rfl

theorem spec_eval (data : List ℚ) (p : ℚ) :
    specPercentile data p =
      if ((⌊rankIndex data p⌋ : ℚ) = rankIndex data p) then
        (sortedOf data).getD (⌊rankIndex data p⌋).toNat 0
      else
        (sortedOf data).getD (⌊rankIndex data p⌋).toNat 0
            * (1 - (rankIndex data p - (⌊rankIndex data p⌋ : ℚ)))
          + (sortedOf data).getD (⌈rankIndex data p⌉).toNat 0
            * (rankIndex data p - (⌊rankIndex data p⌋ : ℚ)) := by
  unfold specPercentile sortedOf rankIndex
  rfl

theorem median_eval (data : List ℚ) :
    medianRef data =
      if (sortedOf data).length % 2 = 1 then
        (sortedOf data).getD ((sortedOf data).length / 2) 0
      else
        ((sortedOf data).getD ((sortedOf data).length / 2 - 1) 0
          + (sortedOf data).getD ((sortedOf data).length / 2) 0) / 2 := by
  unfold medianRef sortedOf
  rfl

/-- C2: for nonempty data, `_calculate_percentile` equals the spec's
linear-interpolation rank statistic for every `p` in `[0, 100]`; percentile 0 is
the minimum, percentile 100 is the maximum, and percentile 50 equals the
reference median. -/
theorem percentile_rank_statistic_C2 (data : List ℚ) (hd : data ≠ []) :
    (∀ p : ℚ, 0 ≤ p → p ≤ 100 →
        calculate_percentile data p = specPercentile data p)
    ∧ (calculate_percentile data 0 ∈ data
        ∧ ∀ x ∈ data, calculate_percentile data 0 ≤ x)
    ∧ (calculate_percentile data 100 ∈ data
        ∧ ∀ x ∈ data, x ≤ calculate_percentile data 100)
    ∧ calculate_percentile data 50 = medianRef data := by
  have hSsorted : List.Sorted (· ≤ ·) (sortedOf data) :=
    List.sorted_insertionSort _ data
  have hSperm : (sortedOf data).Perm data := List.perm_insertionSort _ data
  have hSlen : (sortedOf data).length = data.length :=
    List.length_insertionSort _ data
  have hdpos : 0 < data.length := List.length_pos.mpr hd
  have hn : 1 ≤ (sortedOf data).length := by omega
  have hSne : sortedOf data ≠ [] := by
    intro hh
    rw [hh] at hn
    simp at hn
  have hn1 : (0 : ℚ) ≤ ((sortedOf data).length : ℚ) - 1 := by
    have : (1 : ℚ) ≤ ((sortedOf data).length : ℚ) := by exact_mod_cast hn
    linarith
  have hi_nonneg : ∀ p : ℚ, 0 ≤ p → 0 ≤ rankIndex data p := by
    intro p hp
    exact div_nonneg (mul_nonneg hn1 hp) (by norm_num)
  have hi_le : ∀ p : ℚ, p ≤ 100 → rankIndex data p ≤ ((sortedOf data).length : ℚ) - 1 := by
    intro p hp
    unfold rankIndex
    rw [div_le_iff₀ (by norm_num : (0:ℚ) < 100)]
    exact mul_le_mul_of_nonneg_left hp hn1
  have hpy : ∀ p : ℚ, 0 ≤ p → pyInt (rankIndex data p) = ⌊rankIndex data p⌋ :=
    fun p hp => pyInt_eq_floor _ (hi_nonneg p hp)
  have hfln : ∀ p : ℚ, p ≤ 100 → ⌊rankIndex data p⌋ ≤ ((sortedOf data).length : ℤ) - 1 := by
    intro p hp
    have h1 : ⌊rankIndex data p⌋ ≤ ⌊((sortedOf data).length : ℚ) - 1⌋ :=
      Int.floor_le_floor (hi_le p hp)
    rwa [show (((sortedOf data).length : ℚ) - 1)
        = ((((sortedOf data).length : ℤ) - 1 : ℤ) : ℚ) by push_cast; ring,
      Int.floor_intCast] at h1
  have hrefine : ∀ p : ℚ, 0 ≤ p → p ≤ 100 →
      calculate_percentile data p = specPercentile data p := by
    intro p hp0 hp100
    rw [calc_eval data hd p, spec_eval data p, hpy p hp0]
    have hfl : (⌊rankIndex data p⌋ : ℚ) ≤ rankIndex data p := Int.floor_le _
    have hfl1 : rankIndex data p < ⌊rankIndex data p⌋ + 1 := Int.lt_floor_add_one _
    by_cases hcase : ((sortedOf data).length : ℤ) ≤ ⌊rankIndex data p⌋ + 1
    · rw [if_pos hcase]
      have hfe : ⌊rankIndex data p⌋ = ((sortedOf data).length : ℤ) - 1 := by
        have := hfln p hp100
        omega
      have hieq : (⌊rankIndex data p⌋ : ℚ) = rankIndex data p := by
        have h2 : rankIndex data p ≤ ((⌊rankIndex data p⌋ : ℤ) : ℚ) := by
          rw [hfe]
          push_cast
          linarith [hi_le p hp100]
        linarith
      rw [if_pos hieq]
    · rw [if_neg hcase]
      by_cases hint : (⌊rankIndex data p⌋ : ℚ) = rankIndex data p
      · rw [if_pos hint]
        rw [show rankIndex data p - (⌊rankIndex data p⌋ : ℚ) = 0 by rw [hint]; ring]
        ring
      · rw [if_neg hint]
        have hceil : ⌈rankIndex data p⌉ = ⌊rankIndex data p⌋ + 1 := by
          rw [Int.ceil_eq_iff]
          constructor
          · push_cast
            have : (⌊rankIndex data p⌋ : ℚ) < rankIndex data p :=
              lt_of_le_of_ne hfl (fun hh => hint hh)
            linarith
          · push_cast
            linarith
        rw [hceil]
  have hidx0 : rankIndex data 0 = 0 := by unfold rankIndex; ring
  have hcalc0 : calculate_percentile data 0 = (sortedOf data).getD 0 0 := by
    rw [calc_eval data hd 0, hidx0]
    have hp0 : pyInt (0 : ℚ) = 0 := by
      rw [pyInt_eq_floor _ le_rfl]
      exact Int.floor_zero
    rw [hp0]
    by_cases hc : ((sortedOf data).length : ℤ) ≤ 0 + 1
    · rw [if_pos hc]
      rfl
    · rw [if_neg hc]
      norm_num
  have hidx100 : rankIndex data 100 = ((sortedOf data).length : ℚ) - 1 := by
    unfold rankIndex; ring
  have hcalc100 : calculate_percentile data 100
      = (sortedOf data).getD ((sortedOf data).length - 1) 0 := by
    rw [calc_eval data hd 100, hpy 100 (by norm_num), hidx100]
    rw [show ⌊((sortedOf data).length : ℚ) - 1⌋ = ((sortedOf data).length : ℤ) - 1 by
      rw [show (((sortedOf data).length : ℚ) - 1)
          = ((((sortedOf data).length : ℤ) - 1 : ℤ) : ℚ) by push_cast; ring,
        Int.floor_intCast]]
    rw [if_pos (by omega)]
    congr 1
    omega
  refine ⟨hrefine, ⟨?_, ?_⟩, ⟨?_, ?_⟩, ?_⟩
  · rw [hcalc0]
    exact hSperm.mem_iff.mp (getD_zero_mem hSne)
  · intro x hx
    rw [hcalc0]
    exact sorted_head_le hSsorted (hSperm.mem_iff.mpr hx)
  · rw [hcalc100]
    exact hSperm.mem_iff.mp (getD_last_mem hSne)
  · intro x hx
    rw [hcalc100]
    exact sorted_le_last hSsorted (hSperm.mem_iff.mpr hx)
  · -- p = 50: the median
    have hidx50 : rankIndex data 50 = (((sortedOf data).length : ℚ) - 1) / 2 := by
      unfold rankIndex; ring
    rcases Nat.even_or_odd (sortedOf data).length with he | ho
    · -- even length 2k, k ≥ 1
      obtain ⟨k, hk⟩ := he
      have hk1 : 1 ≤ k := by omega
      have hi : rankIndex data 50 = (k : ℚ) - 1/2 := by
        rw [hidx50, hk]
        push_cast
        ring
      have hflo : ⌊rankIndex data 50⌋ = (k : ℤ) - 1 := by
        rw [hi, Int.floor_eq_iff]
        constructor
        · push_cast; linarith
        · push_cast; linarith
      rw [calc_eval data hd 50, hpy 50 (by norm_num), hflo]
      have hcase : ¬ (((sortedOf data).length : ℤ) ≤ ((k : ℤ) - 1) + 1) := by
        have : ((sortedOf data).length : ℤ) = 2 * (k : ℤ) := by
          rw [hk]; push_cast; ring
        omega
      rw [if_neg hcase]
      rw [show (((k : ℤ) - 1)).toNat = k - 1 by omega,
        show (((k : ℤ) - 1) + 1).toNat = k by omega]
      rw [show rankIndex data 50 - (((k : ℤ) - 1 : ℤ) : ℚ) = 1/2 by
        rw [hi]; push_cast; ring]
      rw [median_eval data]
      rw [if_neg (by omega : ¬ ((sortedOf data).length % 2 = 1))]
      rw [show (sortedOf data).length / 2 = k by omega]
      ring
    · -- odd length 2k+1
      obtain ⟨k, hk⟩ := ho
      have hi : rankIndex data 50 = (k : ℚ) := by
        rw [hidx50, hk]
        push_cast
        ring
      have hflo : ⌊rankIndex data 50⌋ = (k : ℤ) := by
        rw [hi]
        exact_mod_cast Int.floor_natCast k
      rw [calc_eval data hd 50, hpy 50 (by norm_num), hflo]
      rw [median_eval data]
      rw [if_pos (by omega : (sortedOf data).length % 2 = 1)]
      rw [show (sortedOf data).length / 2 = k by omega]
      by_cases hc : ((sortedOf data).length : ℤ) ≤ (k : ℤ) + 1
      · rw [if_pos hc]
        congr 1
      · rw [if_neg hc]
        rw [show rankIndex data 50 - (((k : ℤ) : ℤ) : ℚ) = 0 by rw [hi]; push_cast; ring]
        rw [show ((k : ℤ)).toNat = k by omega]
        ring

/-- Witness for C2 at the concrete latency list `[2, 1, 3]`. -/
theorem percentile_rank_statistic_C2_witness :
    ([(2 : ℚ), 1, 3] ≠ [])
    ∧ ((∀ p : ℚ, 0 ≤ p → p ≤ 100 →
          calculate_percentile [(2 : ℚ), 1, 3] p = specPercentile [(2 : ℚ), 1, 3] p)
      ∧ (calculate_percentile [(2 : ℚ), 1, 3] 0 ∈ [(2 : ℚ), 1, 3]
          ∧ ∀ x ∈ [(2 : ℚ), 1, 3], calculate_percentile [(2 : ℚ), 1, 3] 0 ≤ x)
      ∧ (calculate_percentile [(2 : ℚ), 1, 3] 100 ∈ [(2 : ℚ), 1, 3]
          ∧ ∀ x ∈ [(2 : ℚ), 1, 3], x ≤ calculate_percentile [(2 : ℚ), 1, 3] 100)
      ∧ calculate_percentile [(2 : ℚ), 1, 3] 50 = medianRef [(2 : ℚ), 1, 3]) :=
  ⟨by simp, percentile_rank_statistic_C2 [2, 1, 3] (by simp)⟩

/-- Witness for C3 at the aggregator state with sequences `[1, 2, 4, 3, 5]`:
the in-order rate is 80%. -/
theorem out_of_order_count_C3_witness :
    (mW.latencies_ms ≠ [] ∧ 0 < mW.messages_received)
    ∧ mW.display_summary.in_order_rate
        = some (((mW.messages_received : ℚ) - (count_out_of_order mW.message_counts : ℚ))
            / (mW.messages_received : ℚ) * 100)
    ∧ ((mW.messages_received : ℚ) - (count_out_of_order mW.message_counts : ℚ))
        / (mW.messages_received : ℚ) * 100 = 80 := by
  refine ⟨⟨by simp [mW], by simp [mW]⟩,
    out_of_order_count_C3.2.2.2 mW (by simp [mW]) (by simp [mW]), ?_⟩
  rw [show count_out_of_order mW.message_counts = 1 from rfl,
    show mW.messages_received = 5 from rfl]
  norm_num

/-- Witness for C4 at a trace of two failures and a finalize. -/
theorem summary_no_data_C4_witness :
    (∀ op ∈ [MetricsOp.fail, MetricsOp.fail, MetricsOp.fin pubT], op.isMsg = false)
    ∧ ((runOps initMetrics
          [MetricsOp.fail, MetricsOp.fail, MetricsOp.fin pubT]).display_summary.no_data = true
      ∧ (runOps initMetrics
          [MetricsOp.fail, MetricsOp.fail, MetricsOp.fin pubT]).display_summary.throughput = none
      ∧ (runOps initMetrics
          [MetricsOp.fail, MetricsOp.fail,
            MetricsOp.fin pubT]).display_summary.duration_seconds = none) :=
  ⟨by decide, summary_no_data_C4.1 _ (by decide)⟩

/-- Witness for C5 at a concrete valid envelope. -/
theorem envelope_roundtrip_C5_witness :
    envW.ValidE ∧ decodeEnvelope (Envelope.encode envW) = some envW :=
  ⟨by decide, envelope_roundtrip_C5 envW (by decide)⟩

/-- Witness for C6 at a concrete payload published one second after it is
received: the recorded latency is negative and stored as-is. -/
theorem latency_recorded_exact_C6_witness :
    (goodPayload.getItem "timestamp" = .ok (.str (isoformat pubT))
      ∧ fromisoformat (isoformat pubT) = some pubT
      ∧ goodPayload.getItem "count" = .ok (.num 1))
    ∧ (callback initMetrics recvT (.json goodPayload)).metrics.latencies_ms
        = initMetrics.latencies_ms ++ [latencyMs recvT pubT]
    ∧ latencyMs recvT pubT < 0 := by
  have h1 : goodPayload.getItem "timestamp" = .ok (.str (isoformat pubT)) := rfl
  have h2 : fromisoformat (isoformat pubT) = some pubT :=
    fromisoformat_isoformat pubT (by decide)
  have h3 : goodPayload.getItem "count" = .ok (.num 1) := rfl
  refine ⟨⟨h1, h2, h3⟩,
    (latency_recorded_exact_C6 initMetrics recvT goodPayload _ pubT 1 h1 h2 h3).1, ?_⟩
  have hmic : toEpochMicro pubT = toEpochMicro recvT + 1000000 := by decide
  unfold latencyMs diffSeconds
  rw [hmic]
  push_cast
  ring_nf
  norm_num

/-- Witness for C7 at a concrete batch of three publishes with one failure and
two completion schedules: all outcomes are reported, two succeeded. -/
theorem publish_batch_join_C7_witness :
    ((∀ i ∈ List.range' 1 3, completeW i ≤ (producerRun 3 outcomeW completeW).1)
      ∧ (producerRun 3 outcomeW completeW).2 = (producerRun 3 outcomeW completeW2).2
      ∧ (producerRun 3 outcomeW completeW).2.attempted = 3
      ∧ (producerRun 3 outcomeW completeW).2.outcomes
          = (List.range' 1 3).map outcomeW
      ∧ (producerRun 3 outcomeW completeW).2.outcomes.length = 3
      ∧ (producerRun 3 outcomeW completeW).2.succeeded
          = ((producerRun 3 outcomeW completeW).2.outcomes.filter
              PublishOutcome.isPublished).length)
    ∧ (producerRun 3 outcomeW completeW).2.succeeded = 2
    ∧ (producerRun 3 outcomeW completeW).2.outcomes
        = [.published "mid-1", .failed "transport error", .published "mid-1"] :=
  ⟨publish_batch_join_C7 3 outcomeW completeW completeW2, by decide, by decide⟩
